import Mathlib

/-!
# Verification of the batched synthetic data generator

Shallow embedding of `scripts/fill_db.js` from the Database-Optimization
repository.  The script seeds four tables (users, products, orders,
orderitems) by building fixed-size batches of synthetic rows and issuing
one bulk `INSERT` per batch against a connection pool, strictly
sequentially, and finally closes the pool.

Modelling choices:
* `Math.random()` is modelled as a stream `rand : ℕ → ℚ` of values in
  `[0, 1)`; each stage consumes its calls in order, so a row's random
  values are looked up at explicitly computed call indices.
* Timestamps (milliseconds since epoch) are rationals.  SQL `NOW()` is
  the query-execution time of a batch, modelled as a function
  `nowAt : ℕ → ℚ` from the batch's outer start index to that time.
* `toFixed(2)` is rounding to two decimal places.
* The control flow of `run` (sequential awaited batches, error
  propagation without local handling, `pool.end()` on the success path
  only) is modelled as a trace of submit/complete events plus a success
  flag.
-/

/-! ## Configuration constants (fill_db.js lines 2–5) -/

def BATCH_SIZE : ℕ := 1000
def TOTAL_USERS : ℕ := 100000
def TOTAL_PRODUCTS : ℕ := 10000
def TOTAL_ORDERS : ℕ := 2500000

/-- `const TOTAL_ITEMS = TOTAL_ORDERS * 3` in `insert_orderitems`. -/
def TOTAL_ITEMS : ℕ := TOTAL_ORDERS * 3

/-- Ceiling division `⌈n / b⌉` on naturals, as used by the spec's
batch-count formula. -/
def ceilDiv (n b : ℕ) : ℕ := (n + b - 1) / b

/-! ## Row types (the VALUES tuples built by the script) -/

/-- One `('${email}', NOW())` tuple of `insert_users`. -/
structure UserRow where
  email : String
  created_at : ℚ
deriving DecidableEq, Repr

/-- One `('${name}', ${price})` tuple of `insert_products`. -/
structure ProductRow where
  name : String
  price : ℚ
deriving DecidableEq, Repr

/-- One `(${user_id}, '${created_at}', 'completed')` tuple of
`insert_orders`. -/
structure OrderRow where
  user_id : ℕ
  created_at : ℚ
  status : String
deriving DecidableEq, Repr

/-- One `(${order_id}, ${product_id}, ${quantity}, ${price})` tuple of
`insert_orderitems`. -/
structure OrderItemRow where
  order_id : ℕ
  product_id : ℕ
  quantity : ℕ
  price : ℚ
deriving DecidableEq, Repr

/-! ## Value helpers -/

/-- `randomDate()` (fill_db.js lines 7–11): `start + r * (end - start)`
where `r` is the `Math.random()` value. -/
def randomDate (startMs endMs r : ℚ) : ℚ := startMs + r * (endMs - startMs)

/-- `x.toFixed(2)`: round to two decimal places. -/
def toFixed2 (x : ℚ) : ℚ := (round (x * 100) : ℤ) / 100

/-- `Math.floor(r * n) + 1`, the uniform id sample in `[1, n]`. -/
def randId (n : ℕ) (r : ℚ) : ℕ := (⌊r * (n : ℚ)⌋).toNat + 1

/-! ## Loop structure

Each stage is `for(let i = 0; i < TOTAL; i += BATCH_SIZE)` with an inner
`for(let j = 0; j < BATCH_SIZE; j++)` building exactly `BATCH_SIZE`
value tuples, then one `pool.query` per outer iteration.  `outerIdx`
collects the outer loop's values of `i`. -/

def outerIdx (total batch i : ℕ) : List ℕ :=
  if _h : 0 < batch ∧ i < total then i :: outerIdx total batch (i + batch) else []
termination_by total - i
decreasing_by omega

/-! ## The four stages (fill_db.js lines 13–62)

Each `insert_*` function returns the list of batches it submits, one
batch (the list of value tuples of one bulk INSERT) per `pool.query`
call, in submission order. -/

/-- The inner j-loop of `insert_users` for outer index `i`: emails
`user${i+j+1}@gmail.com`, `created_at` the batch's `NOW()`. -/
def userBatch (i batch : ℕ) (now : ℚ) : List UserRow :=
  (List.range batch).map fun j =>
    { email := "user" ++ toString (i + j + 1) ++ "@gmail.com", created_at := now }

/-- `insert_users` with the totals as parameters; `nowAt i` is the SQL
`NOW()` of the batch starting at index `i`. -/
def insert_users (total batch : ℕ) (nowAt : ℕ → ℚ) : List (List UserRow) :=
  (outerIdx total batch 0).map fun i => userBatch i batch (nowAt i)

/-- The inner j-loop of `insert_products`: name `Product ${i+j+1}`,
price `(Math.random() * 500).toFixed(2)`; row `i + j` consumes random
call `i + j` of the stage. -/
def productBatch (i batch : ℕ) (rand : ℕ → ℚ) : List ProductRow :=
  (List.range batch).map fun j =>
    { name := "Product " ++ toString (i + j + 1), price := toFixed2 (rand (i + j) * 500) }

def insert_products (total batch : ℕ) (rand : ℕ → ℚ) : List (List ProductRow) :=
  (outerIdx total batch 0).map fun i => productBatch i batch rand

/-- The inner j-loop of `insert_orders`: row `k = i + j` consumes random
calls `2k` (user_id) and `2k+1` (randomDate). -/
def orderBatch (i batch users : ℕ) (startMs endMs : ℚ) (rand : ℕ → ℚ) : List OrderRow :=
  (List.range batch).map fun j =>
    { user_id := randId users (rand (2 * (i + j)))
      created_at := randomDate startMs endMs (rand (2 * (i + j) + 1))
      status := "completed" }

def insert_orders (total batch users : ℕ) (startMs endMs : ℚ) (rand : ℕ → ℚ) :
    List (List OrderRow) :=
  (outerIdx total batch 0).map fun i => orderBatch i batch users startMs endMs rand

/-- The inner j-loop of `insert_orderitems`: row `k = i + j` consumes
random calls `4k` (order_id), `4k+1` (product_id), `4k+2` (quantity),
`4k+3` (price). -/
def orderItemBatch (i batch orders products : ℕ) (rand : ℕ → ℚ) : List OrderItemRow :=
  (List.range batch).map fun j =>
    { order_id := randId orders (rand (4 * (i + j)))
      product_id := randId products (rand (4 * (i + j) + 1))
      quantity := randId 10 (rand (4 * (i + j) + 2))
      price := toFixed2 (rand (4 * (i + j) + 3) * 500) }

def insert_orderitems (totalItems batch orders products : ℕ) (rand : ℕ → ℚ) :
    List (List OrderItemRow) :=
  (outerIdx totalItems batch 0).map fun i => orderItemBatch i batch orders products rand

/-! ## Bounds on the sampled values -/

/-- The `Math.random()` stream produces values in `[0, 1)`. -/
def randBounded (rand : ℕ → ℚ) : Prop := ∀ n, 0 ≤ rand n ∧ rand n < 1

/-- A constant stream usable as a concrete random source. -/
def constHalf : ℕ → ℚ := fun _ => 1 / 2

/-! ## The run: stages, events, traces (fill_db.js lines 64–73)

`run()` awaits `insert_users`, `insert_products`, `insert_orders`,
`insert_orderitems` in that order and then `pool.end()`.  Every
`pool.query` is awaited; there is no try/catch or try/finally, so a
rejected query propagates out of `run` and nothing after it executes. -/

inductive Stage where
  | users
  | products
  | orders
  | items
deriving DecidableEq, Repr

inductive Event where
  | submit : Stage → ℕ → Event
  | complete : Stage → ℕ → Event
  | poolEnd : Event
deriving DecidableEq, Repr

/-- Batches submitted by each stage under the reference configuration. -/
def numBatches : Stage → ℕ
  | Stage.users => ceilDiv TOTAL_USERS BATCH_SIZE
  | Stage.products => ceilDiv TOTAL_PRODUCTS BATCH_SIZE
  | Stage.orders => ceilDiv TOTAL_ORDERS BATCH_SIZE
  | Stage.items => ceilDiv TOTAL_ITEMS BATCH_SIZE

/-- One stage's loop over its batch indices.  `submit` is the
`pool.query` call; a failing query rejects the awaited promise and the
stage stops there (no `complete`, no further batch); a successful query
completes and the loop continues. -/
def runStage (fails : Stage → ℕ → Bool) (s : Stage) : List ℕ → List Event × Bool
  | [] => ([], true)
  | b :: bs =>
    if fails s b then ([Event.submit s b], false)
    else
      let r := runStage fails s bs
      (Event.submit s b :: Event.complete s b :: r.1, r.2)

/-- The awaited stage sequence of `run`; a failed stage aborts the rest. -/
def seqRun (fails : Stage → ℕ → Bool) : List Stage → List Event × Bool
  | [] => ([], true)
  | s :: rest =>
    let r := runStage fails s (List.range (numBatches s))
    if r.2 then
      let r2 := seqRun fails rest
      (r.1 ++ r2.1, r2.2)
    else (r.1, false)

def stageOrder : List Stage := [Stage.users, Stage.products, Stage.orders, Stage.items]

/-- The full trace of `run()`: four stages then `await pool.end()`.
Without try/finally the error propagates before `pool.end()`. -/
def runTrace (fails : Stage → ℕ → Bool) : List Event × Bool :=
  let r := seqRun fails stageOrder
  if r.2 then (r.1 ++ [Event.poolEnd], true) else (r.1, false)

/-- The all-queries-succeed failure specification. -/
def noFail : Stage → ℕ → Bool := fun _ _ => false

/-- The trace a stage emits when every one of its queries succeeds. -/
def cleanTrace (s : Stage) (l : List ℕ) : List Event :=
  (l.map fun b => [Event.submit s b, Event.complete s b]).flatten

def isSubmit : Event → Bool
  | Event.submit _ _ => true
  | _ => false

def isComplete : Event → Bool
  | Event.complete _ _ => true
  | _ => false

/-- At most one bulk-insert statement is outstanding at any point of the
trace: every prefix has at most one more `submit` than `complete`. -/
def oneInFlight (tr : List Event) : Prop :=
  ∀ n, (tr.take n).countP isSubmit ≤ (tr.take n).countP isComplete + 1

/-- A trace with equally many submits and completes. -/
def balanced (tr : List Event) : Prop := tr.countP isSubmit = tr.countP isComplete

/-- Position of each stage in the sequential order of `run`. -/
def stageIdx : Stage → ℕ
  | Stage.users => 0
  | Stage.products => 1
  | Stage.orders => 2
  | Stage.items => 3

/-- The stages `run` executes strictly before a given stage. -/
def stagesBefore : Stage → List Stage
  | Stage.users => []
  | Stage.products => [Stage.users]
  | Stage.orders => [Stage.users, Stage.products]
  | Stage.items => [Stage.users, Stage.products, Stage.orders]

/-- `p` is strictly earlier than `q` in submission order: an earlier
stage, or the same stage with a smaller batch index. -/
def batchBefore (p q : Stage × ℕ) : Prop :=
  stageIdx p.1 < stageIdx q.1 ∨ (p.1 = q.1 ∧ p.2 < q.2)

/-- The clean trace of every stage before `s`, concatenated in order. -/
def cleanStagesBefore (s : Stage) : List Event :=
  ((stagesBefore s).map fun t => cleanTrace t (List.range (numBatches t))).flatten

/-! ## Backend state across runs (fill_db.js `run`, C9)

An `INSERT ... VALUES` statement appends rows; it never updates or
deletes.  The backend state is the list of rows of each table, and one
complete successful run of the script appends every generated row. -/

structure DB where
  users : List UserRow
  products : List ProductRow
  orders : List OrderRow
  orderitems : List OrderItemRow

/-- The backend state after one complete successful run of `run()`
under the reference configuration, starting from state `db`.  The run's
environment (batch query times and the three random streams) are
parameters. -/
def applyRun (db : DB) (nowAt randP randO randI : ℕ → ℚ) (startMs endMs : ℚ) : DB :=
  { users := db.users ++ (insert_users TOTAL_USERS BATCH_SIZE nowAt).flatten
    products := db.products ++ (insert_products TOTAL_PRODUCTS BATCH_SIZE randP).flatten
    orders := db.orders ++
      (insert_orders TOTAL_ORDERS BATCH_SIZE TOTAL_USERS startMs endMs randO).flatten
    orderitems := db.orderitems ++
      (insert_orderitems TOTAL_ITEMS BATCH_SIZE TOTAL_ORDERS TOTAL_PRODUCTS randI).flatten }

/-- A failure specification making the very first query of the run (the
first user batch) fail. -/
def failFirst : Stage → ℕ → Bool := fun s b => s == Stage.users && b == 0

/-! ## Length lemmas for the loop structure -/

theorem ceilDiv_eq_zero (b : ℕ) : ceilDiv 0 b = 0 := by
  unfold ceilDiv
  rcases Nat.eq_zero_or_pos b with h | h
  · simp [h]
  · exact Nat.div_eq_of_lt (by omega)

theorem ceilDiv_step (n b : ℕ) (hb : 0 < b) (hn : 0 < n) :
    ceilDiv n b = ceilDiv (n - b) b + 1 := by
  unfold ceilDiv
  rcases le_or_lt n b with h | h
  · have h0 : n - b = 0 := by omega
    rw [h0]
    have h1 : (0 + b - 1) / b = 0 := Nat.div_eq_of_lt (by omega)
    rw [h1]
    exact Nat.div_eq_of_lt_le (by omega) (by omega)
  · have h2 : n + b - 1 = (n - b + b - 1) + b := by omega
    rw [h2, Nat.add_div_right _ hb]

theorem outerIdx_length (total batch : ℕ) (hb : 0 < batch) :
    ∀ i, (outerIdx total batch i).length = ceilDiv (total - i) batch := by
  have H : ∀ n i, total - i = n → (outerIdx total batch i).length = ceilDiv n batch := by
    intro n
    induction n using Nat.strong_induction_on with
    | _ n ih =>
      intro i hi
      rw [outerIdx]
      split
      · rename_i hcond
        have hlt : i < total := hcond.2
        have hn : 0 < n := by omega
        have hrec : total - (i + batch) = n - batch := by omega
        have hless : n - batch < n := by omega
        simp only [List.length_cons, ih (n - batch) hless (i + batch) hrec]
        rw [ceilDiv_step n batch hb hn]
      · rename_i hcond
        have h0 : n = 0 := by
          push_neg at hcond
          have := hcond hb
          omega
        simp [h0, ceilDiv_eq_zero]
  intro i
  exact H (total - i) i rfl

theorem outerIdx_length_zero (total batch : ℕ) (hb : 0 < batch) :
    (outerIdx total batch 0).length = ceilDiv total batch := by
  simpa using outerIdx_length total batch hb 0

/-- Every member of `outerIdx total batch i0` is a multiple of `batch`
shifted by `i0` and below `total`. -/
theorem outerIdx_mem (total batch : ℕ) :
    ∀ i0 i, i ∈ outerIdx total batch i0 → i < total ∧ ∃ k, i = i0 + k * batch := by
  intro i0
  have H : ∀ n i0, total - i0 = n →
      ∀ i, i ∈ outerIdx total batch i0 → i < total ∧ ∃ k, i = i0 + k * batch := by
    intro n
    induction n using Nat.strong_induction_on with
    | _ n ih =>
      intro i0 hi0 i hmem
      rw [outerIdx] at hmem
      split at hmem
      · rename_i hcond
        rcases List.mem_cons.mp hmem with h | h
        · exact ⟨h ▸ hcond.2, 0, by omega⟩
        · have hless : n - batch < n := by omega
          have hrec : total - (i0 + batch) = n - batch := by omega
          obtain ⟨hlt, k, hk⟩ := ih (n - batch) hless (i0 + batch) hrec i h
          exact ⟨hlt, k + 1, by rw [hk]; ring⟩
      · simp at hmem
  exact H (total - i0) i0 rfl

theorem insert_users_length (total batch : ℕ) (hb : 0 < batch) (nowAt : ℕ → ℚ) :
    (insert_users total batch nowAt).length = ceilDiv total batch := by
  unfold insert_users
  rw [List.length_map]
  exact outerIdx_length_zero total batch hb

theorem userBatch_length (i batch : ℕ) (now : ℚ) : (userBatch i batch now).length = batch := by
  simp [userBatch]

/-- Total number of user rows across all submitted batches. -/
theorem insert_users_join_length (total batch : ℕ) (hb : 0 < batch) (nowAt : ℕ → ℚ) :
    (insert_users total batch nowAt).flatten.length = ceilDiv total batch * batch := by
  unfold insert_users
  rw [List.length_flatten]
  have hmap : ((outerIdx total batch 0).map fun i => userBatch i batch (nowAt i)).map
      List.length = (outerIdx total batch 0).map fun _ => batch := by
    rw [List.map_map]
    exact List.map_congr_left fun i _ => userBatch_length i batch (nowAt i)
  rw [hmap, List.map_const', List.sum_replicate,
    outerIdx_length_zero total batch hb, smul_eq_mul]

/-- Generic total-row count: mapping a constant-length batch builder
over the outer indices and flattening yields `numBatches * batch` rows. -/
theorem flatten_length_const {α : Type} (l : List ℕ) (f : ℕ → List α) (batch : ℕ)
    (h : ∀ i ∈ l, (f i).length = batch) :
    (l.map f).flatten.length = l.length * batch := by
  rw [List.length_flatten, List.map_map]
  have hmap : l.map (List.length ∘ f) = l.map fun _ => batch :=
    List.map_congr_left fun i hi => h i hi
  rw [hmap, List.map_const', List.sum_replicate, smul_eq_mul]

theorem productBatch_length (i batch : ℕ) (rand : ℕ → ℚ) :
    (productBatch i batch rand).length = batch := by
  simp [productBatch]

theorem orderBatch_length (i batch users : ℕ) (startMs endMs : ℚ) (rand : ℕ → ℚ) :
    (orderBatch i batch users startMs endMs rand).length = batch := by
  simp [orderBatch]

theorem orderItemBatch_length (i batch orders products : ℕ) (rand : ℕ → ℚ) :
    (orderItemBatch i batch orders products rand).length = batch := by
  simp [orderItemBatch]

theorem insert_products_rows_length (total batch : ℕ) (hb : 0 < batch) (rand : ℕ → ℚ) :
    (insert_products total batch rand).flatten.length = ceilDiv total batch * batch := by
  unfold insert_products
  rw [flatten_length_const _ _ batch fun i _ => productBatch_length i batch rand,
    outerIdx_length_zero total batch hb]

theorem insert_orders_rows_length (total batch users : ℕ) (hb : 0 < batch)
    (startMs endMs : ℚ) (rand : ℕ → ℚ) :
    (insert_orders total batch users startMs endMs rand).flatten.length =
      ceilDiv total batch * batch := by
  unfold insert_orders
  rw [flatten_length_const _ _ batch fun i _ => orderBatch_length i batch users startMs endMs rand,
    outerIdx_length_zero total batch hb]

theorem insert_orderitems_rows_length (totalItems batch orders products : ℕ) (hb : 0 < batch)
    (rand : ℕ → ℚ) :
    (insert_orderitems totalItems batch orders products rand).flatten.length =
      ceilDiv totalItems batch * batch := by
  unfold insert_orderitems
  rw [flatten_length_const _ _ batch fun i _ => orderItemBatch_length i batch orders products rand,
    outerIdx_length_zero totalItems batch hb]

theorem constHalf_bounded : randBounded constHalf := by
  intro n
  constructor <;> norm_num [constHalf]

/-- `Math.floor(r * n) + 1 ∈ [1, n]` for `r ∈ [0, 1)` and `n ≥ 1`. -/
theorem randId_bounds (n : ℕ) (hn : 0 < n) (r : ℚ) (h0 : 0 ≤ r) (h1 : r < 1) :
    1 ≤ randId n r ∧ randId n r ≤ n := by
  unfold randId
  have hnn : (0 : ℚ) ≤ r * (n : ℚ) := mul_nonneg h0 (by positivity)
  have hfl0 : 0 ≤ ⌊r * (n : ℚ)⌋ := Int.floor_nonneg.mpr hnn
  have hlt : r * (n : ℚ) < (n : ℚ) := by
    calc r * (n : ℚ) < 1 * (n : ℚ) := by
          apply mul_lt_mul_of_pos_right h1
          exact_mod_cast hn
    _ = (n : ℚ) := one_mul _
  have hfl : ⌊r * (n : ℚ)⌋ < (n : ℤ) := Int.floor_lt.mpr (by exact_mod_cast hlt)
  omega

/-- `randomDate` stays within `[startMs, endMs]` for `r ∈ [0, 1)`. -/
theorem randomDate_bounds (startMs endMs r : ℚ) (hse : startMs ≤ endMs)
    (h0 : 0 ≤ r) (h1 : r < 1) :
    startMs ≤ randomDate startMs endMs r ∧ randomDate startMs endMs r ≤ endMs := by
  unfold randomDate
  constructor
  · nlinarith
  · nlinarith

/-- `(r * 500).toFixed(2)` stays within `[0, 500]` for `r ∈ [0, 1)`. -/
theorem toFixed2_bounds (r : ℚ) (h0 : 0 ≤ r) (h1 : r < 1) :
    0 ≤ toFixed2 (r * 500) ∧ toFixed2 (r * 500) ≤ 500 := by
  unfold toFixed2
  set z : ℚ := r * 500 * 100 with hz
  have hz0 : 0 ≤ z := by positivity
  have hz1 : z < 50000 := by nlinarith
  have habs : |z - (round z : ℚ)| ≤ 1 / 2 := abs_sub_round z
  have hlow : (round z : ℚ) ≥ z - 1 / 2 := by
    have := abs_le.mp habs
    linarith [this.2]
  have hhigh : (round z : ℚ) ≤ z + 1 / 2 := by
    have := abs_le.mp habs
    linarith [this.1]
  have hlow2 : (2 : ℚ) * (round z : ℚ) ≥ -1 := by linarith
  have hhigh2 : (2 : ℚ) * (round z : ℚ) < 100001 := by linarith
  have hlowz : (-1 : ℤ) ≤ 2 * round z := by exact_mod_cast hlow2
  have hhighz : 2 * round z < 100001 := by exact_mod_cast hhigh2
  have h1z : (0 : ℤ) ≤ round z := by omega
  have h2z : round z ≤ 50000 := by omega
  constructor
  · positivity
  · rw [div_le_iff₀ (by norm_num : (0 : ℚ) < 100)]
    calc ((round z : ℤ) : ℚ) ≤ ((50000 : ℤ) : ℚ) := by exact_mod_cast h2z
    _ = 500 * 100 := by norm_num

/-! ## Row membership -/

/-- Membership in flattened batches through the outer-index list. -/
theorem mem_flatten_map {α : Type} (l : List ℕ) (f : ℕ → List α) (x : α)
    (hx : x ∈ (l.map f).flatten) : ∃ i ∈ l, x ∈ f i := by
  rw [List.mem_flatten] at hx
  obtain ⟨bat, hbat, hxbat⟩ := hx
  rw [List.mem_map] at hbat
  obtain ⟨i, hil, hfi⟩ := hbat
  exact ⟨i, hil, hfi ▸ hxbat⟩

/-! ### Trace lemmas -/

theorem runStage_clean (fails : Stage → ℕ → Bool) (s : Stage) :
    ∀ l, (∀ b ∈ l, fails s b = false) → runStage fails s l = (cleanTrace s l, true) := by
  intro l
  induction l with
  | nil => intro _; simp [runStage, cleanTrace]
  | cons b bs ih =>
    intro h
    rw [runStage]
    have hb : fails s b = false := h b (List.mem_cons_self _ _)
    rw [hb]
    simp only [Bool.false_eq_true, if_false]
    rw [ih fun x hx => h x (List.mem_cons_of_mem b hx)]
    simp [cleanTrace]

theorem runStage_failAt (fails : Stage → ℕ → Bool) (s : Stage) (b : ℕ) (l2 : List ℕ)
    (hb : fails s b = true) :
    ∀ l1, (∀ x ∈ l1, fails s x = false) →
      runStage fails s (l1 ++ b :: l2) = (cleanTrace s l1 ++ [Event.submit s b], false) := by
  intro l1
  induction l1 with
  | nil => intro _; simp [runStage, hb, cleanTrace]
  | cons x xs ih =>
    intro h
    rw [List.cons_append, runStage]
    have hx : fails s x = false := h x (List.mem_cons_self _ _)
    rw [hx]
    simp only [Bool.false_eq_true, if_false]
    rw [ih fun y hy => h y (List.mem_cons_of_mem x hy)]
    simp [cleanTrace]

/-- Every event a stage emits is a `submit` or `complete` of that stage,
with a batch index drawn from the stage's batch list. -/
theorem runStage_events (fails : Stage → ℕ → Bool) (s : Stage) :
    ∀ l e, e ∈ (runStage fails s l).1 →
      ∃ x ∈ l, e = Event.submit s x ∨ e = Event.complete s x := by
  intro l
  induction l with
  | nil => intro e he; simp [runStage] at he
  | cons b bs ih =>
    intro e he
    rw [runStage] at he
    by_cases hb : fails s b = true
    · rw [if_pos hb] at he
      simp only [List.mem_singleton] at he
      exact ⟨b, (List.mem_cons_self _ _), Or.inl he⟩
    · rw [if_neg hb] at he
      simp only [List.mem_cons] at he
      rcases he with h | h | h
      · exact ⟨b, (List.mem_cons_self _ _), Or.inl h⟩
      · exact ⟨b, (List.mem_cons_self _ _), Or.inr h⟩
      · obtain ⟨x, hx, hor⟩ := ih e h
        exact ⟨x, List.mem_cons_of_mem b hx, hor⟩

theorem cleanTrace_events (s : Stage) (l : List ℕ) (e : Event) (he : e ∈ cleanTrace s l) :
    ∃ x ∈ l, e = Event.submit s x ∨ e = Event.complete s x := by
  unfold cleanTrace at he
  rw [List.mem_flatten] at he
  obtain ⟨pair, hpair, hepair⟩ := he
  rw [List.mem_map] at hpair
  obtain ⟨x, hxl, hxpair⟩ := hpair
  subst hxpair
  simp only [List.mem_cons, List.mem_singleton, List.not_mem_nil, or_false] at hepair
  exact ⟨x, hxl, hepair⟩

theorem seqRun_events (fails : Stage → ℕ → Bool) :
    ∀ ss e, e ∈ (seqRun fails ss).1 →
      ∃ s x, (e = Event.submit s x ∨ e = Event.complete s x) := by
  intro ss
  induction ss with
  | nil => intro e he; simp [seqRun] at he
  | cons s rest ih =>
    intro e he
    rw [seqRun] at he
    split at he
    · rw [List.mem_append] at he
      rcases he with h | h
      · obtain ⟨x, _, hor⟩ := runStage_events fails s _ e h
        exact ⟨s, x, hor⟩
      · exact ih e h
    · obtain ⟨x, _, hor⟩ := runStage_events fails s _ e he
      exact ⟨s, x, hor⟩

theorem poolEnd_not_mem_seqRun (fails : Stage → ℕ → Bool) (ss : List Stage) :
    Event.poolEnd ∉ (seqRun fails ss).1 := by
  intro h
  obtain ⟨s, x, hor⟩ := seqRun_events fails ss Event.poolEnd h
  rcases hor with h1 | h1 <;> exact Event.noConfusion h1

theorem cleanTrace_nil (s : Stage) : cleanTrace s [] = [] := by
  simp [cleanTrace]

theorem cleanTrace_cons (s : Stage) (b : ℕ) (bs : List ℕ) :
    cleanTrace s (b :: bs) = Event.submit s b :: Event.complete s b :: cleanTrace s bs := by
  simp [cleanTrace]

theorem oneInFlight_nil : oneInFlight [] := by
  intro n
  simp

theorem oneInFlight_pair (s : Stage) (b : ℕ) (tr : List Event) (h : oneInFlight tr) :
    oneInFlight (Event.submit s b :: Event.complete s b :: tr) := by
  intro n
  match n with
  | 0 => simp
  | 1 => simp [isSubmit, isComplete]
  | Nat.succ (Nat.succ m) =>
    have hm := h m
    simp only [List.take_succ_cons, List.countP_cons]
    simp only [isSubmit, isComplete]
    omega

theorem oneInFlight_append (tr1 tr2 : List Event) (h1 : oneInFlight tr1)
    (hbal : balanced tr1) (h2 : oneInFlight tr2) : oneInFlight (tr1 ++ tr2) := by
  intro n
  rw [List.take_append_eq_append_take, List.countP_append, List.countP_append]
  rcases le_or_lt n tr1.length with h | h
  · have h0 : n - tr1.length = 0 := by omega
    rw [h0]
    simpa using h1 n
  · rw [List.take_of_length_le (by omega)]
    have hb := hbal
    unfold balanced at hb
    have := h2 (n - tr1.length)
    omega

theorem oneInFlight_single_submit (s : Stage) (b : ℕ) :
    oneInFlight [Event.submit s b] := by
  intro n
  match n with
  | 0 => simp
  | Nat.succ m => simp [isSubmit, isComplete]

theorem oneInFlight_single_end : oneInFlight [Event.poolEnd] := by
  intro n
  match n with
  | 0 => simp
  | Nat.succ m => simp [isSubmit, isComplete]

theorem balanced_end : balanced [Event.poolEnd] := by
  simp [balanced, isSubmit, isComplete]

theorem runStage_oneInFlight (fails : Stage → ℕ → Bool) (s : Stage) :
    ∀ l, oneInFlight (runStage fails s l).1 ∧
      ((runStage fails s l).2 = true → balanced (runStage fails s l).1) := by
  intro l
  induction l with
  | nil =>
    constructor
    · simpa [runStage] using oneInFlight_nil
    · intro _; simp [runStage, balanced]
  | cons b bs ih =>
    rw [runStage]
    by_cases hb : fails s b = true
    · rw [if_pos hb]
      exact ⟨oneInFlight_single_submit s b, by intro h; exact absurd h (by simp)⟩
    · rw [if_neg hb]
      refine ⟨oneInFlight_pair s b _ ih.1, ?_⟩
      intro hok
      have hbal := ih.2 hok
      unfold balanced at hbal ⊢
      simp only [List.countP_cons, isSubmit, isComplete]
      omega

theorem seqRun_oneInFlight (fails : Stage → ℕ → Bool) :
    ∀ ss, oneInFlight (seqRun fails ss).1 ∧
      ((seqRun fails ss).2 = true → balanced (seqRun fails ss).1) := by
  intro ss
  induction ss with
  | nil =>
    constructor
    · simpa [seqRun] using oneInFlight_nil
    · intro _; simp [seqRun, balanced]
  | cons s rest ih =>
    rw [seqRun]
    by_cases hok : (runStage fails s (List.range (numBatches s))).2 = true
    · rw [if_pos hok]
      have hstage := runStage_oneInFlight fails s (List.range (numBatches s))
      refine ⟨oneInFlight_append _ _ hstage.1 (hstage.2 hok) ih.1, ?_⟩
      intro hall
      have hbal2 := ih.2 hall
      have hbal1 := hstage.2 hok
      unfold balanced at hbal1 hbal2 ⊢
      rw [List.countP_append, List.countP_append]
      omega
    · rw [if_neg hok]
      exact ⟨(runStage_oneInFlight fails s _).1, by intro h; exact absurd h (by simp)⟩

theorem runTrace_oneInFlight (fails : Stage → ℕ → Bool) : oneInFlight (runTrace fails).1 := by
  rw [runTrace]
  by_cases hok : (seqRun fails stageOrder).2 = true
  · rw [if_pos hok]
    exact oneInFlight_append _ _ (seqRun_oneInFlight fails stageOrder).1
      ((seqRun_oneInFlight fails stageOrder).2 hok) oneInFlight_single_end
  · rw [if_neg hok]
    exact (seqRun_oneInFlight fails stageOrder).1

/-- A fully clean run of a stage list concatenates the stages' clean
traces in order. -/
theorem seqRun_clean (fails : Stage → ℕ → Bool) :
    ∀ ss, (∀ s ∈ ss, ∀ b < numBatches s, fails s b = false) →
      seqRun fails ss = ((ss.map fun s => cleanTrace s (List.range (numBatches s))).flatten, true) := by
  intro ss
  induction ss with
  | nil => intro _; simp [seqRun]
  | cons s rest ih =>
    intro h
    rw [seqRun]
    have hs : ∀ b ∈ List.range (numBatches s), fails s b = false := by
      intro b hbmem
      exact h s (List.mem_cons_self _ _) b (List.mem_range.mp hbmem)
    rw [runStage_clean fails s _ hs]
    simp only [if_pos]
    rw [ih fun t ht b hb => h t (List.mem_cons_of_mem s ht) b hb]
    simp

/-- Splitting `List.range n` at an index `b < n`. -/
theorem range_split (n b : ℕ) (h : b < n) :
    List.range n = List.range b ++ b :: List.drop (b + 1) (List.range n) := by
  have hlen : b < (List.range n).length := by simpa using h
  have hdrop : List.drop b (List.range n) = b :: List.drop (b + 1) (List.range n) := by
    rw [List.drop_eq_getElem_cons hlen]
    simp
  calc List.range n = List.take b (List.range n) ++ List.drop b (List.range n) :=
        (List.take_append_drop b (List.range n)).symm
  _ = List.range b ++ b :: List.drop (b + 1) (List.range n) := by
        rw [List.take_range, Nat.min_eq_left (le_of_lt h), hdrop]

theorem mem_stagesBefore_lt (s t : Stage) (ht : t ∈ stagesBefore s) :
    stageIdx t < stageIdx s := by
  cases s
  · simp [stagesBefore] at ht
  · simp [stagesBefore] at ht
    subst ht
    simp [stageIdx]
  · simp [stagesBefore] at ht
    rcases ht with h | h <;> subst h <;> simp [stageIdx]
  · simp [stagesBefore] at ht
    rcases ht with h | h | h <;> subst h <;> simp [stageIdx]

theorem poolEnd_not_mem_cleanTrace (s : Stage) (l : List ℕ) :
    Event.poolEnd ∉ cleanTrace s l := by
  intro h
  obtain ⟨x, _, hor⟩ := cleanTrace_events s l Event.poolEnd h
  rcases hor with h1 | h1 <;> exact Event.noConfusion h1

theorem submit_mem_cleanTrace (s t : Stage) (c : ℕ) (l : List ℕ)
    (h : Event.submit t c ∈ cleanTrace s l) : t = s ∧ c ∈ l := by
  obtain ⟨x, hx, hor⟩ := cleanTrace_events s l _ h
  rcases hor with h1 | h1
  · obtain ⟨rfl, rfl⟩ : t = s ∧ c = x := by
      injection h1 with h2 h3
      exact ⟨h2, h3⟩
    exact ⟨rfl, hx⟩
  · exact Event.noConfusion h1

theorem seqRun_cons_ok (fails : Stage → ℕ → Bool) (s : Stage) (rest : List Stage)
    (tr : List Event) (h : runStage fails s (List.range (numBatches s)) = (tr, true)) :
    seqRun fails (s :: rest) = (tr ++ (seqRun fails rest).1, (seqRun fails rest).2) := by
  rw [seqRun, h]
  simp

theorem seqRun_cons_fail (fails : Stage → ℕ → Bool) (s : Stage) (rest : List Stage)
    (tr : List Event) (h : runStage fails s (List.range (numBatches s)) = (tr, false)) :
    seqRun fails (s :: rest) = (tr, false) := by
  rw [seqRun, h]
  simp

theorem runTrace_eq_of_fail (fails : Stage → ℕ → Bool) (tr : List Event)
    (h : seqRun fails stageOrder = (tr, false)) : runTrace fails = (tr, false) := by
  rw [runTrace, h]
  simp

theorem runTrace_eq_of_ok (fails : Stage → ℕ → Bool) (tr : List Event)
    (h : seqRun fails stageOrder = (tr, true)) : runTrace fails = (tr ++ [Event.poolEnd], true) := by
  rw [runTrace, h]
  simp

/-- The trace of a run whose first failing query is batch `b` of stage
`s`: all earlier stages complete cleanly, stage `s` completes batches
`0..b-1`, the failing submit is emitted, and nothing else happens. -/
theorem runTrace_failAt (fails : Stage → ℕ → Bool) (s : Stage) (b : ℕ)
    (hb : fails s b = true) (hbn : b < numBatches s)
    (hstageclean : ∀ t, stageIdx t < stageIdx s → ∀ b1, b1 < numBatches t → fails t b1 = false)
    (hbatchclean : ∀ x, x < b → fails s x = false) :
    runTrace fails =
      (cleanStagesBefore s ++ (cleanTrace s (List.range b) ++ [Event.submit s b]), false) := by
  have hfailstage : runStage fails s (List.range (numBatches s)) =
      (cleanTrace s (List.range b) ++ [Event.submit s b], false) := by
    conv_lhs => rw [range_split (numBatches s) b hbn]
    exact runStage_failAt fails s b _ hb (List.range b)
      fun x hx => hbatchclean x (List.mem_range.mp hx)
  have hcleanstage : ∀ t, stageIdx t < stageIdx s →
      runStage fails t (List.range (numBatches t)) =
        (cleanTrace t (List.range (numBatches t)), true) := by
    intro t ht
    exact runStage_clean fails t _ fun x hx => hstageclean t ht x (List.mem_range.mp hx)
  cases s with
  | users =>
    apply runTrace_eq_of_fail
    unfold stageOrder
    rw [seqRun_cons_fail fails Stage.users _ _ hfailstage]
    simp [cleanStagesBefore, stagesBefore]
  | products =>
    apply runTrace_eq_of_fail
    unfold stageOrder
    rw [seqRun_cons_ok fails Stage.users _ _ (hcleanstage Stage.users (by decide)),
      seqRun_cons_fail fails Stage.products _ _ hfailstage]
    simp [cleanStagesBefore, stagesBefore]
  | orders =>
    apply runTrace_eq_of_fail
    unfold stageOrder
    rw [seqRun_cons_ok fails Stage.users _ _ (hcleanstage Stage.users (by decide)),
      seqRun_cons_ok fails Stage.products _ _ (hcleanstage Stage.products (by decide)),
      seqRun_cons_fail fails Stage.orders _ _ hfailstage]
    simp [cleanStagesBefore, stagesBefore]
  | items =>
    apply runTrace_eq_of_fail
    unfold stageOrder
    rw [seqRun_cons_ok fails Stage.users _ _ (hcleanstage Stage.users (by decide)),
      seqRun_cons_ok fails Stage.products _ _ (hcleanstage Stage.products (by decide)),
      seqRun_cons_ok fails Stage.orders _ _ (hcleanstage Stage.orders (by decide)),
      seqRun_cons_fail fails Stage.items _ _ hfailstage]
    simp [cleanStagesBefore, stagesBefore]

/-! ## Row-level properties of the generated data -/

theorem mem_userBatch_created_at (i batch : ℕ) (now : ℚ) (u : UserRow)
    (hu : u ∈ userBatch i batch now) : u.created_at = now := by
  unfold userBatch at hu
  rw [List.mem_map] at hu
  obtain ⟨j, _, rfl⟩ := hu
  rfl

theorem insert_orders_row_bounds (total batch users : ℕ) (hu : 0 < users)
    (startMs endMs : ℚ) (hse : startMs ≤ endMs) (rand : ℕ → ℚ) (hr : randBounded rand) :
    ∀ o ∈ (insert_orders total batch users startMs endMs rand).flatten,
      1 ≤ o.user_id ∧ o.user_id ≤ users ∧ o.status = "completed" ∧
      startMs ≤ o.created_at ∧ o.created_at ≤ endMs := by
  intro o ho
  unfold insert_orders at ho
  obtain ⟨i, _, hbo⟩ := mem_flatten_map _ _ o ho
  unfold orderBatch at hbo
  rw [List.mem_map] at hbo
  obtain ⟨j, _, rfl⟩ := hbo
  obtain ⟨h1, h2⟩ := randId_bounds users hu _ (hr (2 * (i + j))).1 (hr (2 * (i + j))).2
  obtain ⟨h3, h4⟩ := randomDate_bounds startMs endMs _ hse
    (hr (2 * (i + j) + 1)).1 (hr (2 * (i + j) + 1)).2
  exact ⟨h1, h2, rfl, h3, h4⟩

theorem insert_orderitems_row_bounds (totalItems batch orders products : ℕ)
    (ho : 0 < orders) (hp : 0 < products) (rand : ℕ → ℚ) (hr : randBounded rand) :
    ∀ it ∈ (insert_orderitems totalItems batch orders products rand).flatten,
      1 ≤ it.order_id ∧ it.order_id ≤ orders ∧
      1 ≤ it.product_id ∧ it.product_id ≤ products ∧
      1 ≤ it.quantity ∧ it.quantity ≤ 10 ∧
      0 ≤ it.price ∧ it.price ≤ 500 := by
  intro it hit
  unfold insert_orderitems at hit
  obtain ⟨i, _, hbi⟩ := mem_flatten_map _ _ it hit
  unfold orderItemBatch at hbi
  rw [List.mem_map] at hbi
  obtain ⟨j, _, rfl⟩ := hbi
  obtain ⟨h1, h2⟩ := randId_bounds orders ho _ (hr (4 * (i + j))).1 (hr (4 * (i + j))).2
  obtain ⟨h3, h4⟩ := randId_bounds products hp _
    (hr (4 * (i + j) + 1)).1 (hr (4 * (i + j) + 1)).2
  obtain ⟨h5, h6⟩ := randId_bounds 10 (by norm_num) _
    (hr (4 * (i + j) + 2)).1 (hr (4 * (i + j) + 2)).2
  obtain ⟨h7, h8⟩ := toFixed2_bounds _ (hr (4 * (i + j) + 3)).1 (hr (4 * (i + j) + 3)).2
  exact ⟨h1, h2, h3, h4, h5, h6, h7, h8⟩

/-! ### Reference-configuration row counts -/

theorem ref_users_rows (nowAt : ℕ → ℚ) :
    (insert_users TOTAL_USERS BATCH_SIZE nowAt).flatten.length = TOTAL_USERS := by
  rw [insert_users_join_length TOTAL_USERS BATCH_SIZE (by norm_num [BATCH_SIZE]) nowAt]
  norm_num [ceilDiv, TOTAL_USERS, BATCH_SIZE]

theorem ref_products_rows (rand : ℕ → ℚ) :
    (insert_products TOTAL_PRODUCTS BATCH_SIZE rand).flatten.length = TOTAL_PRODUCTS := by
  rw [insert_products_rows_length TOTAL_PRODUCTS BATCH_SIZE (by norm_num [BATCH_SIZE]) rand]
  norm_num [ceilDiv, TOTAL_PRODUCTS, BATCH_SIZE]

theorem ref_orders_rows (startMs endMs : ℚ) (rand : ℕ → ℚ) :
    (insert_orders TOTAL_ORDERS BATCH_SIZE TOTAL_USERS startMs endMs rand).flatten.length =
      TOTAL_ORDERS := by
  rw [insert_orders_rows_length TOTAL_ORDERS BATCH_SIZE TOTAL_USERS
    (by norm_num [BATCH_SIZE]) startMs endMs rand]
  norm_num [ceilDiv, TOTAL_ORDERS, BATCH_SIZE]

theorem ref_orderitems_rows (rand : ℕ → ℚ) :
    (insert_orderitems TOTAL_ITEMS BATCH_SIZE TOTAL_ORDERS TOTAL_PRODUCTS rand).flatten.length =
      TOTAL_ORDERS * 3 := by
  rw [insert_orderitems_rows_length TOTAL_ITEMS BATCH_SIZE TOTAL_ORDERS TOTAL_PRODUCTS
    (by norm_num [BATCH_SIZE]) rand]
  norm_num [ceilDiv, TOTAL_ITEMS, TOTAL_ORDERS, BATCH_SIZE]

theorem insert_users_batch_sizes (total batch : ℕ) (nowAt : ℕ → ℚ) :
    ∀ bat ∈ insert_users total batch nowAt, bat.length = batch := by
  intro bat h
  unfold insert_users at h
  rw [List.mem_map] at h
  obtain ⟨i, _, rfl⟩ := h
  exact userBatch_length i batch (nowAt i)

theorem insert_products_batch_sizes (total batch : ℕ) (rand : ℕ → ℚ) :
    ∀ bat ∈ insert_products total batch rand, bat.length = batch := by
  intro bat h
  unfold insert_products at h
  rw [List.mem_map] at h
  obtain ⟨i, _, rfl⟩ := h
  exact productBatch_length i batch rand

theorem insert_orders_batch_sizes (total batch users : ℕ) (startMs endMs : ℚ) (rand : ℕ → ℚ) :
    ∀ bat ∈ insert_orders total batch users startMs endMs rand, bat.length = batch := by
  intro bat h
  unfold insert_orders at h
  rw [List.mem_map] at h
  obtain ⟨i, _, rfl⟩ := h
  exact orderBatch_length i batch users startMs endMs rand

theorem insert_orderitems_batch_sizes (totalItems batch orders products : ℕ) (rand : ℕ → ℚ) :
    ∀ bat ∈ insert_orderitems totalItems batch orders products rand, bat.length = batch := by
  intro bat h
  unfold insert_orderitems at h
  rw [List.mem_map] at h
  obtain ⟨i, _, rfl⟩ := h
  exact orderItemBatch_length i batch orders products rand

theorem submit_mem_cleanStagesBefore (s t : Stage) (c : ℕ)
    (h : Event.submit t c ∈ cleanStagesBefore s) : stageIdx t < stageIdx s := by
  unfold cleanStagesBefore at h
  rw [List.mem_flatten] at h
  obtain ⟨tr, htr, hmem⟩ := h
  rw [List.mem_map] at htr
  obtain ⟨u, hu, rfl⟩ := htr
  obtain ⟨rfl, _⟩ := submit_mem_cleanTrace u t c _ hmem
  exact mem_stagesBefore_lt s _ hu

theorem poolEnd_not_mem_cleanStagesBefore (s : Stage) :
    Event.poolEnd ∉ cleanStagesBefore s := by
  intro h
  unfold cleanStagesBefore at h
  rw [List.mem_flatten] at h
  obtain ⟨tr, htr, hmem⟩ := h
  rw [List.mem_map] at htr
  obtain ⟨u, _, rfl⟩ := htr
  exact poolEnd_not_mem_cleanTrace u _ hmem

/-! ## Claims -/

/-- Claim C1 (counterexample).  With `total_users = 5` and
`batch_size = 2` the three submitted batches have sizes 2, 2, 2 — not
2, 2, 1 — and 6 user rows are inserted, not 5: the inner loop always
builds exactly `batch_size` value tuples. -/
theorem C1_counterexample :
    ((insert_users 5 2 fun _ => 0).map List.length == [2, 2, 1]) = false ∧
    ((insert_users 5 2 fun _ => 0).flatten.length == 5) = false ∧
    (insert_users 5 2 fun _ => 0).map List.length = [2, 2, 2] ∧
    (insert_users 5 2 fun _ => 0).flatten.length = 6 := by
  refine ⟨?_, ?_, ?_, ?_⟩ <;> simp [insert_users, outerIdx, userBatch]

/-- Claim C1 (amended).  Each generation stage submits exactly
`ceil(total / batch_size)` batches, but every batch — the last
included — holds exactly `batch_size` rows, so
`ceil(total / batch_size) * batch_size` rows are inserted in all (there
is no out-of-range index access; email indices simply continue past the
total).  With `total_users = 5`, `batch_size = 2`, exactly 3 batches of
sizes 2, 2, 2 are submitted and 6 user rows exist afterward with
distinct emails `user1@...` through `user6@...`. -/
theorem C1_amended (total batch : ℕ) (hb : 0 < batch) (nowAt : ℕ → ℚ) :
    (insert_users total batch nowAt).length = ceilDiv total batch ∧
    (∀ bat ∈ insert_users total batch nowAt, bat.length = batch) ∧
    (insert_users total batch nowAt).flatten.length = ceilDiv total batch * batch ∧
    (insert_users 5 2 nowAt).map List.length = [2, 2, 2] ∧
    (insert_users 5 2 nowAt).flatten.map UserRow.email =
      ["user1@gmail.com", "user2@gmail.com", "user3@gmail.com",
       "user4@gmail.com", "user5@gmail.com", "user6@gmail.com"] ∧
    ((insert_users 5 2 nowAt).flatten.map UserRow.email).Nodup := by
  have hemails : (insert_users 5 2 nowAt).flatten.map UserRow.email =
      ["user1@gmail.com", "user2@gmail.com", "user3@gmail.com",
       "user4@gmail.com", "user5@gmail.com", "user6@gmail.com"] := by
    simp [insert_users, outerIdx, userBatch, List.range_succ]
    decide
  refine ⟨insert_users_length total batch hb nowAt,
    insert_users_batch_sizes total batch nowAt,
    insert_users_join_length total batch hb nowAt,
    by simp [insert_users, outerIdx, userBatch], hemails, ?_⟩
  rw [hemails]
  decide

/-- Witness for C1_amended at `total = 5`, `batch = 2`. -/
theorem C1_witness :
    0 < 2 ∧
    ((insert_users 5 2 fun _ => (0 : ℚ)).length = ceilDiv 5 2 ∧
     (∀ bat ∈ insert_users 5 2 fun _ => (0 : ℚ), bat.length = 2) ∧
     (insert_users 5 2 fun _ => (0 : ℚ)).flatten.length = ceilDiv 5 2 * 2 ∧
     (insert_users 5 2 fun _ => (0 : ℚ)).map List.length = [2, 2, 2] ∧
     (insert_users 5 2 fun _ => (0 : ℚ)).flatten.map UserRow.email =
       ["user1@gmail.com", "user2@gmail.com", "user3@gmail.com",
        "user4@gmail.com", "user5@gmail.com", "user6@gmail.com"] ∧
     ((insert_users 5 2 fun _ => (0 : ℚ)).flatten.map UserRow.email).Nodup) :=
  ⟨by decide, C1_amended 5 2 (by decide) fun _ => (0 : ℚ)⟩

/-- Claim C2 (confirmed).  Under the reference configuration a complete
run inserts exactly 100000 user rows, 10000 product rows, 2500000 order
rows and 7500000 order-item rows, whatever the clock and random streams
produce: batching neither drops nor duplicates rows. -/
theorem C2_run_totals (nowAt randP randO randI : ℕ → ℚ) (startMs endMs : ℚ) :
    (insert_users TOTAL_USERS BATCH_SIZE nowAt).flatten.length = 100000 ∧
    (insert_products TOTAL_PRODUCTS BATCH_SIZE randP).flatten.length = 10000 ∧
    (insert_orders TOTAL_ORDERS BATCH_SIZE TOTAL_USERS startMs endMs randO).flatten.length =
      2500000 ∧
    (insert_orderitems TOTAL_ITEMS BATCH_SIZE TOTAL_ORDERS TOTAL_PRODUCTS
      randI).flatten.length = 7500000 := by
  refine ⟨?_, ?_, ?_, ?_⟩
  · rw [ref_users_rows]; rfl
  · rw [ref_products_rows]; rfl
  · rw [ref_orders_rows]; rfl
  · rw [ref_orderitems_rows]; rfl

/-- Claim C3 (counterexample).  `insert_users` never calls
`randomDate`: every user row's `created_at` is the SQL `NOW()` of its
batch.  When the whole run executes at clock value 7, all 100000
generated users carry the identical timestamp 7 — the values are a
single constant, not samples spread over `[start_date, now]`. -/
theorem C3_counterexample :
    (insert_users TOTAL_USERS BATCH_SIZE fun _ => 7).flatten.all
      (fun u => u.created_at == 7) = true ∧
    (insert_users TOTAL_USERS BATCH_SIZE fun _ => 7).flatten.length = 100000 := by
  constructor
  · rw [List.all_eq_true]
    intro u hu
    unfold insert_users at hu
    obtain ⟨i, _, hbu⟩ := mem_flatten_map _ _ u hu
    have hc := mem_userBatch_created_at i BATCH_SIZE 7 u hbu
    simp [hc]
  · rw [ref_users_rows]; rfl

/-- Claim C3 (amended).  Every submitted user batch is the inner loop's
batch for some outer index `i < total`, and every row in it has
`created_at` equal to that batch's `NOW()` value `nowAt i` — the same
for all rows of the batch and independent of any random sampling
(`randomDate` is used only by `insert_orders`). -/
theorem C3_amended (total batch : ℕ) (nowAt : ℕ → ℚ) (bat : List UserRow)
    (hbat : bat ∈ insert_users total batch nowAt) :
    ∃ i, i < total ∧ bat = userBatch i batch (nowAt i) ∧
      ∀ u ∈ bat, u.created_at = nowAt i := by
  unfold insert_users at hbat
  rw [List.mem_map] at hbat
  obtain ⟨i, hi, rfl⟩ := hbat
  obtain ⟨hlt, -⟩ := outerIdx_mem total batch 0 i hi
  exact ⟨i, hlt, rfl, fun u hu => mem_userBatch_created_at i batch (nowAt i) u hu⟩

/-- Witness for C3_amended at the first batch of a 5-user, 2-per-batch
configuration with clock value 7. -/
theorem C3_witness :
    (userBatch 0 2 7 ∈ insert_users 5 2 fun _ => (7 : ℚ)) ∧
    (∃ i, i < 5 ∧ userBatch 0 2 7 = userBatch i 2 ((fun _ => (7 : ℚ)) i) ∧
      ∀ u ∈ userBatch 0 2 7, u.created_at = (fun _ => (7 : ℚ)) i) := by
  have hmem : userBatch 0 2 7 ∈ insert_users 5 2 fun _ => (7 : ℚ) := by
    simp [insert_users, outerIdx]
  exact ⟨hmem, C3_amended 5 2 (fun _ => (7 : ℚ)) (userBatch 0 2 7) hmem⟩

/-- Claim C4 (confirmed).  Every generated order has a user id in
`[1, user_count]` (`Math.floor(Math.random() * TOTAL_USERS) + 1`), the
fixed status string "completed", and a `randomDate` timestamp between
the start date and the current time. -/
theorem C4_order_rows (total batch users : ℕ) (hu : 0 < users) (startMs endMs : ℚ)
    (hse : startMs ≤ endMs) (rand : ℕ → ℚ) (hr : randBounded rand) :
    ∀ o ∈ (insert_orders total batch users startMs endMs rand).flatten,
      1 ≤ o.user_id ∧ o.user_id ≤ users ∧ o.status = "completed" ∧
      startMs ≤ o.created_at ∧ o.created_at ≤ endMs :=
  insert_orders_row_bounds total batch users hu startMs endMs hse rand hr

/-- Witness for C4_order_rows under the reference configuration with a
constant one-half random stream and the window `[0, 1]`. -/
theorem C4_witness :
    (0 < TOTAL_USERS ∧ (0 : ℚ) ≤ 1 ∧ randBounded constHalf) ∧
    ∀ o ∈ (insert_orders TOTAL_ORDERS BATCH_SIZE TOTAL_USERS 0 1 constHalf).flatten,
      1 ≤ o.user_id ∧ o.user_id ≤ TOTAL_USERS ∧ o.status = "completed" ∧
      (0 : ℚ) ≤ o.created_at ∧ o.created_at ≤ 1 :=
  ⟨⟨by decide, by norm_num, constHalf_bounded⟩,
    C4_order_rows TOTAL_ORDERS BATCH_SIZE TOTAL_USERS (by decide) 0 1 (by norm_num)
      constHalf constHalf_bounded⟩

/-- Claim C5 (confirmed).  The order-items stage generates exactly
`total_orders * 3` items, and every generated item has
`order_id ∈ [1, total_orders]`, `product_id ∈ [1, total_products]`,
`quantity ∈ [1, 10]` and `price ∈ [0, 500]`. -/
theorem C5_orderitem_rows (rand : ℕ → ℚ) (hr : randBounded rand) :
    (insert_orderitems TOTAL_ITEMS BATCH_SIZE TOTAL_ORDERS TOTAL_PRODUCTS
      rand).flatten.length = TOTAL_ORDERS * 3 ∧
    ∀ it ∈ (insert_orderitems TOTAL_ITEMS BATCH_SIZE TOTAL_ORDERS TOTAL_PRODUCTS
      rand).flatten,
      1 ≤ it.order_id ∧ it.order_id ≤ TOTAL_ORDERS ∧
      1 ≤ it.product_id ∧ it.product_id ≤ TOTAL_PRODUCTS ∧
      1 ≤ it.quantity ∧ it.quantity ≤ 10 ∧
      0 ≤ it.price ∧ it.price ≤ 500 :=
  ⟨ref_orderitems_rows rand,
    insert_orderitems_row_bounds TOTAL_ITEMS BATCH_SIZE TOTAL_ORDERS TOTAL_PRODUCTS
      (by decide) (by decide) rand hr⟩

/-- Witness for C5_orderitem_rows with the constant one-half stream. -/
theorem C5_witness :
    randBounded constHalf ∧
    ((insert_orderitems TOTAL_ITEMS BATCH_SIZE TOTAL_ORDERS TOTAL_PRODUCTS
      constHalf).flatten.length = TOTAL_ORDERS * 3 ∧
    ∀ it ∈ (insert_orderitems TOTAL_ITEMS BATCH_SIZE TOTAL_ORDERS TOTAL_PRODUCTS
      constHalf).flatten,
      1 ≤ it.order_id ∧ it.order_id ≤ TOTAL_ORDERS ∧
      1 ≤ it.product_id ∧ it.product_id ≤ TOTAL_PRODUCTS ∧
      1 ≤ it.quantity ∧ it.quantity ≤ 10 ∧
      0 ≤ it.price ∧ it.price ≤ 500) :=
  ⟨constHalf_bounded, C5_orderitem_rows constHalf constHalf_bounded⟩

/-- Claim C6 (confirmed).  In a run where every query succeeds, the
trace is exactly: all user batches, then all product batches, then all
order batches, then all order-item batches — each batch's submit
immediately followed by its completion — and finally the pool release;
every prefix of the trace has at most one submit without a matching
completion, so at most one bulk insert is ever outstanding. -/
theorem C6_sequential_run :
    runTrace noFail =
      (cleanTrace Stage.users (List.range (numBatches Stage.users)) ++
       (cleanTrace Stage.products (List.range (numBatches Stage.products)) ++
        (cleanTrace Stage.orders (List.range (numBatches Stage.orders)) ++
         cleanTrace Stage.items (List.range (numBatches Stage.items)))) ++
       [Event.poolEnd], true) ∧
    oneInFlight (runTrace noFail).1 := by
  have hclean := seqRun_clean noFail stageOrder fun s _ b _ => rfl
  constructor
  · have := runTrace_eq_of_ok noFail _ hclean
    rw [this]
    unfold stageOrder
    simp [List.append_assoc]
  · exact runTrace_oneInFlight noFail

/-- Claim C7 (confirmed).  If the first failing query of a run is batch
`b` of stage `s`, then the run's result is the propagated error, the
trace ends at that failing submit (clean earlier stages, clean earlier
batches of `s`, then the failing submit), every submitted batch is at
or before the failing one in stage-batch order (nothing later is
submitted), and the failing batch is submitted exactly once (no
retry). -/
theorem C7_failure_aborts (fails : Stage → ℕ → Bool) (s : Stage) (b : ℕ)
    (hb : fails s b = true) (hbn : b < numBatches s)
    (hclean : ∀ p : Stage × ℕ, batchBefore p (s, b) → p.2 < numBatches p.1 →
      fails p.1 p.2 = false) :
    (runTrace fails).2 = false ∧
    (runTrace fails).1 =
      cleanStagesBefore s ++ (cleanTrace s (List.range b) ++ [Event.submit s b]) ∧
    (∀ t c, Event.submit t c ∈ (runTrace fails).1 →
      batchBefore (t, c) (s, b) ∨ (t = s ∧ c = b)) ∧
    List.count (Event.submit s b) (runTrace fails).1 = 1 ∧
    Event.poolEnd ∉ (runTrace fails).1 := by
  have hstageclean : ∀ t, stageIdx t < stageIdx s → ∀ b1, b1 < numBatches t →
      fails t b1 = false :=
    fun t ht b1 hb1 => hclean (t, b1) (Or.inl ht) hb1
  have hbatchclean : ∀ x, x < b → fails s x = false :=
    fun x hx => hclean (s, x) (Or.inr ⟨rfl, hx⟩) (lt_trans hx hbn)
  have main := runTrace_failAt fails s b hb hbn hstageclean hbatchclean
  rw [main]
  refine ⟨rfl, rfl, ?_, ?_, ?_⟩
  · intro t c hmem
    simp only [List.mem_append, List.mem_singleton] at hmem
    rcases hmem with h1 | h2 | h3
    · exact Or.inl (Or.inl (submit_mem_cleanStagesBefore s t c h1))
    · obtain ⟨rfl, hc⟩ := submit_mem_cleanTrace s t c _ h2
      exact Or.inl (Or.inr ⟨rfl, List.mem_range.mp hc⟩)
    · injection h3 with h4 h5
      exact Or.inr ⟨h4, h5⟩
  · have hA : List.count (Event.submit s b) (cleanStagesBefore s) = 0 :=
      List.count_eq_zero.mpr fun h =>
        absurd (submit_mem_cleanStagesBefore s s b h) (lt_irrefl _)
    have hB : List.count (Event.submit s b) (cleanTrace s (List.range b)) = 0 :=
      List.count_eq_zero.mpr fun h => by
        obtain ⟨-, hc⟩ := submit_mem_cleanTrace s s b _ h
        exact absurd (List.mem_range.mp hc) (lt_irrefl b)
    simp [List.count_append, hA, hB]
  · intro h
    simp only [List.mem_append, List.mem_singleton] at h
    rcases h with h | h | h
    · exact poolEnd_not_mem_cleanStagesBefore s h
    · exact poolEnd_not_mem_cleanTrace s _ h
    · exact Event.noConfusion h

/-- Witness for C7_failure_aborts: the very first query of the run (user
batch 0) fails. -/
theorem C7_witness :
    (failFirst Stage.users 0 = true ∧ 0 < numBatches Stage.users ∧
      ∀ p : Stage × ℕ, batchBefore p (Stage.users, 0) → p.2 < numBatches p.1 →
        failFirst p.1 p.2 = false) ∧
    ((runTrace failFirst).2 = false ∧
     (runTrace failFirst).1 =
       cleanStagesBefore Stage.users ++
         (cleanTrace Stage.users (List.range 0) ++ [Event.submit Stage.users 0]) ∧
     (∀ t c, Event.submit t c ∈ (runTrace failFirst).1 →
       batchBefore (t, c) (Stage.users, 0) ∨ (t = Stage.users ∧ c = 0)) ∧
     List.count (Event.submit Stage.users 0) (runTrace failFirst).1 = 1 ∧
     Event.poolEnd ∉ (runTrace failFirst).1) := by
  have h1 : failFirst Stage.users 0 = true := by decide
  have h2 : 0 < numBatches Stage.users := by decide
  have h3 : ∀ p : Stage × ℕ, batchBefore p (Stage.users, 0) → p.2 < numBatches p.1 →
      failFirst p.1 p.2 = false := by
    intro p hp _
    exfalso
    rcases hp with h | h
    · exact absurd h (by simp [stageIdx])
    · exact absurd h.2 (Nat.not_lt_zero _)
  exact ⟨⟨h1, h2, h3⟩, C7_failure_aborts failFirst Stage.users 0 h1 h2 h3⟩

/-- Claim C8 (counterexample).  When the very first query fails, the
run ends in the error state and `pool.end()` is never invoked: the
whole trace is the single failing submit and contains no pool release.
With no try/finally in `run`, teardown is not attempted on failure. -/
theorem C8_counterexample :
    (runTrace failFirst).2 = false ∧
    List.count Event.poolEnd (runTrace failFirst).1 = 0 ∧
    (runTrace failFirst).1 = [Event.submit Stage.users 0] := by decide

/-- Claim C8 (amended).  `pool.end()` is executed exactly once, as the
final action, in a successful run; in a failed run it is executed zero
times — the teardown is not attempted because the rejected promise
propagates out of `run` before `pool.end()` is reached. -/
theorem C8_amended (fails : Stage → ℕ → Bool) :
    List.count Event.poolEnd (runTrace fails).1 =
      (if (runTrace fails).2 = true then 1 else 0) ∧
    (runTrace noFail).2 = true ∧
    (runTrace noFail).1.getLast? = some Event.poolEnd := by
  refine ⟨?_, ?_, ?_⟩
  · rcases hsr : seqRun fails stageOrder with ⟨tr, ok⟩
    have hmem := poolEnd_not_mem_seqRun fails stageOrder
    rw [hsr] at hmem
    cases ok
    · rw [runTrace_eq_of_fail fails tr hsr]
      simp [List.count_eq_zero.mpr hmem]
    · rw [runTrace_eq_of_ok fails tr hsr]
      simp [List.count_append, List.count_eq_zero.mpr hmem]
  · rw [runTrace_eq_of_ok noFail _ (seqRun_clean noFail stageOrder fun s _ b _ => rfl)]
  · rw [runTrace_eq_of_ok noFail _ (seqRun_clean noFail stageOrder fun s _ b _ => rfl)]
    simp

/-- Claim C9 (confirmed).  A complete run only appends: after a second
run on top of a first, each table holds the first run's rows as a
prefix plus the second run's rows, and the row counts are the initial
counts plus twice the configured totals — append, not upsert. -/
theorem C9_rerun_appends (db : DB)
    (nowAt1 nowAt2 randP1 randP2 randO1 randO2 randI1 randI2 : ℕ → ℚ)
    (s1 e1 s2 e2 : ℚ) :
    let db1 := applyRun db nowAt1 randP1 randO1 randI1 s1 e1
    let db2 := applyRun db1 nowAt2 randP2 randO2 randI2 s2 e2
    (db2.users.length = db.users.length + 2 * TOTAL_USERS) ∧
    (db2.products.length = db.products.length + 2 * TOTAL_PRODUCTS) ∧
    (db2.orders.length = db.orders.length + 2 * TOTAL_ORDERS) ∧
    (db2.orderitems.length = db.orderitems.length + 2 * (TOTAL_ORDERS * 3)) ∧
    (∃ t, db2.users = db1.users ++ t) ∧
    (∃ t, db2.products = db1.products ++ t) ∧
    (∃ t, db2.orders = db1.orders ++ t) ∧
    (∃ t, db2.orderitems = db1.orderitems ++ t) := by
  intro db1 db2
  refine ⟨?_, ?_, ?_, ?_, ⟨_, rfl⟩, ⟨_, rfl⟩, ⟨_, rfl⟩, ⟨_, rfl⟩⟩ <;>
    simp only [db1, db2, applyRun, List.length_append, ref_users_rows, ref_products_rows,
      ref_orders_rows, ref_orderitems_rows] <;> omega

/-- Claim C10 (confirmed).  Every bulk insert submitted by any stage
encodes exactly `batch_size` rows, the final batch included, so each
stage submits `ceil(total / batch_size) * batch_size` rows in all; when
the total is not a multiple of the batch size, the user emails continue
past the configured total (with `total = 5`, `batch = 2`, a
`user6@...` row exists). -/
theorem C10_full_batches (total batch users products orders : ℕ) (hb : 0 < batch)
    (nowAt randP randO randI : ℕ → ℚ) (startMs endMs : ℚ) :
    (∀ bat ∈ insert_users total batch nowAt, bat.length = batch) ∧
    (∀ bat ∈ insert_products total batch randP, bat.length = batch) ∧
    (∀ bat ∈ insert_orders total batch users startMs endMs randO, bat.length = batch) ∧
    (∀ bat ∈ insert_orderitems total batch orders products randI, bat.length = batch) ∧
    (insert_users total batch nowAt).flatten.length = ceilDiv total batch * batch ∧
    (insert_products total batch randP).flatten.length = ceilDiv total batch * batch ∧
    (insert_orders total batch users startMs endMs randO).flatten.length =
      ceilDiv total batch * batch ∧
    (insert_orderitems total batch orders products randI).flatten.length =
      ceilDiv total batch * batch ∧
    "user6@gmail.com" ∈ (insert_users 5 2 nowAt).flatten.map UserRow.email := by
  refine ⟨insert_users_batch_sizes total batch nowAt,
    insert_products_batch_sizes total batch randP,
    insert_orders_batch_sizes total batch users startMs endMs randO,
    insert_orderitems_batch_sizes total batch orders products randI,
    insert_users_join_length total batch hb nowAt,
    insert_products_rows_length total batch hb randP,
    insert_orders_rows_length total batch users hb startMs endMs randO,
    insert_orderitems_rows_length total batch orders products hb randI, ?_⟩
  simp [insert_users, outerIdx, userBatch, List.range_succ]
  decide

/-- Witness for C10_full_batches at `total = 5`, `batch = 2`. -/
theorem C10_witness :
    0 < 2 ∧
    ((∀ bat ∈ insert_users 5 2 fun _ => (0 : ℚ), bat.length = 2) ∧
     (∀ bat ∈ insert_products 5 2 fun _ => (0 : ℚ), bat.length = 2) ∧
     (∀ bat ∈ insert_orders 5 2 1 0 0 fun _ => (0 : ℚ), bat.length = 2) ∧
     (∀ bat ∈ insert_orderitems 5 2 1 1 fun _ => (0 : ℚ), bat.length = 2) ∧
     (insert_users 5 2 fun _ => (0 : ℚ)).flatten.length = ceilDiv 5 2 * 2 ∧
     (insert_products 5 2 fun _ => (0 : ℚ)).flatten.length = ceilDiv 5 2 * 2 ∧
     (insert_orders 5 2 1 0 0 fun _ => (0 : ℚ)).flatten.length = ceilDiv 5 2 * 2 ∧
     (insert_orderitems 5 2 1 1 fun _ => (0 : ℚ)).flatten.length = ceilDiv 5 2 * 2 ∧
     "user6@gmail.com" ∈ (insert_users 5 2 fun _ => (0 : ℚ)).flatten.map UserRow.email) :=
  ⟨by decide, C10_full_batches 5 2 1 1 1 (by decide) (fun _ => (0 : ℚ)) (fun _ => (0 : ℚ))
    (fun _ => (0 : ℚ)) (fun _ => (0 : ℚ)) 0 0⟩
